import Mathlib

/-!
Shallow embedding of `source/extensions/omni.isaac.lab/omni/isaac/lab/managers/event_manager.py`
(class `EventManager`).

Modelling conventions:
* `torch` tensors holding per-environment scalars become Lean `List`s
  (`List ℚ` for float buffers, `List ℤ` for the int32 step-count buffers).
  Time values are modelled as rationals: the only arithmetic performed on them
  is subtraction and affine maps, which the model represents exactly.
* `torch.rand` draws are modelled by an explicit stream `r : ℕ → ℚ` of draws,
  consumed left to right; each value stands for one uniform sample in `[0, 1)`.
* Python `dict`s keyed by mode/term name become association lists
  (`List (String × _)`) preserving insertion order, matching dict iteration order.
* The argument `env_ids : Sequence[int] | None` and its in-loop rebindings
  (`None`, `slice(None)`, index tensors) become the inductive `EnvArg`.
* `term_cfg.func(self._env, env_ids, **term_cfg.params)` has side effects only
  in the simulator, which is outside this subsystem; the model records each
  call as an `Invocation` (term name and the `env_ids` value passed).
* Raised exceptions become `Except EventError _`; `carb.log_warn` is a no-op.
* `ManagerBase._resolve_common_term_cfg` (signature validation of the callable,
  defined outside this file's source) is modelled as always succeeding; the
  claims below do not depend on signature validation.
-/

namespace OrbitEvent

/-- The `env_ids` value threaded through `EventManager.apply`:
Python `None`, `slice(None)`, or an index tensor. -/
inductive EnvArg where
  | noneArg
  | sliceAll
  | idx (l : List ℕ)
deriving DecidableEq, Repr

/-- Exceptions raised by the embedded code. `configError` stands for the
`ValueError`s raised in `_prepare_terms`, `nameNotFound` for the
`ValueError("Event term ... not found.")` of `get_term_cfg`/`set_term_cfg`,
and `valueError` for the caller-contract `ValueError`s of `apply`. -/
inductive EventError where
  | configError
  | nameNotFound
  | valueError
deriving DecidableEq, Repr

/-- The fields of `EventTermCfg` that `event_manager.py` reads. -/
structure EventTermCfg where
  mode : String
  interval_range_s : Option (ℚ × ℚ) := Option.none
  is_global_time : Bool := false
  min_step_count_between_reset : ℤ := 0
deriving DecidableEq, Repr

def defaultCfg : EventTermCfg := { mode := "" }

/-- One recorded call `term_cfg.func(self._env, env_ids, **params)`:
the term's name and the `env_ids` argument it received. -/
structure Invocation where
  name : String
  arg : EnvArg
deriving DecidableEq, Repr

/-- The mutable state of an `EventManager`: `_mode_term_names`,
`_mode_term_cfgs`, `_interval_term_time_left` and
`_reset_term_last_triggered_step_id`.  A global-time interval buffer
(`torch.rand(1)`) is a length-one list. -/
structure EventManagerState where
  mode_term_names : List (String × List String)
  mode_term_cfgs : List (String × List EventTermCfg)
  interval_term_time_left : List (List ℚ)
  reset_term_last_triggered_step_id : List (List ℤ)
deriving DecidableEq, Repr

/-- Decidable equality of results, so that concrete runs of the model can be
checked by `decide`. -/
instance {e a : Type} [DecidableEq e] [DecidableEq a] : DecidableEq (Except e a) := fun x y =>
  match x, y with
  | .ok v, .ok w =>
    if h : v = w then .isTrue (congrArg Except.ok h)
    else .isFalse (fun hc => h (Except.ok.inj hc))
  | .error v, .error w =>
    if h : v = w then .isTrue (congrArg Except.error h)
    else .isFalse (fun hc => h (Except.error.inj hc))
  | .ok _, .error _ => .isFalse (fun hc => Except.noConfusion hc)
  | .error _, .ok _ => .isFalse (fun hc => Except.noConfusion hc)

/-- Lookup of the first entry with the given key (Python `dict[k]` /
`k in dict` on insertion-ordered keys). -/
def alistFind {α : Type} (k : String) : List (String × α) → Option α
  | [] => Option.none
  | (k', v) :: rest => if k = k' then some v else alistFind k rest

/-- In-place update of the first entry with the given key. -/
def alistUpdate {α : Type} (k : String) (f : α → α) : List (String × α) → List (String × α)
  | [] => []
  | (k', v) :: rest => if k = k' then (k', f v) :: rest else (k', v) :: alistUpdate k f rest

/-- `self._mode_term_names[mode] = list(); self._mode_term_cfgs[mode] = list()`
when the mode is new. -/
def addMode (st : EventManagerState) (mode : String) : EventManagerState :=
  if (alistFind mode st.mode_term_names).isSome then st
  else { st with
    mode_term_names := st.mode_term_names ++ [(mode, [])],
    mode_term_cfgs := st.mode_term_cfgs ++ [(mode, [])] }

/-- `self._mode_term_names[term_cfg.mode].append(term_name)` and the matching
append of the cfg. -/
def addTerm (st : EventManagerState) (name : String) (c : EventTermCfg) : EventManagerState :=
  let st' := addMode st c.mode
  { st' with
    mode_term_names := alistUpdate c.mode (fun l => l ++ [name]) st'.mode_term_names,
    mode_term_cfgs := alistUpdate c.mode (fun l => l ++ [c]) st'.mode_term_cfgs }

/-- The loop body of `EventManager._prepare_terms`, recursing over the
(term-name, cfg) items of the configuration.  A `none` cfg is the Python
`None` descriptor and is skipped.  `rpos` is the position in the random
stream `r`. -/
def prepareAux (num_envs : ℕ) (r : ℕ → ℚ) :
    List (String × Option EventTermCfg) → ℕ → EventManagerState →
    Except EventError EventManagerState
  | [], _, st => .ok st
  | (_, Option.none) :: rest, rpos, st => prepareAux num_envs r rest rpos st
  | (name, some c) :: rest, rpos, st =>
    -- carb.log_warn for non-"reset" terms with a nonzero gate: no observable effect
    -- _resolve_common_term_cfg: modelled as succeeding (see file header)
    let st' := addTerm st name c
    if c.mode = "interval" then
      match c.interval_range_s with
      | Option.none => .error .configError
      | some (lo, hi) =>
        if c.is_global_time then
          let t := [r rpos * (hi - lo) + lo]
          prepareAux num_envs r rest (rpos + 1)
            { st' with interval_term_time_left := st'.interval_term_time_left ++ [t] }
        else
          let t := (List.range num_envs).map (fun j => r (rpos + j) * (hi - lo) + lo)
          prepareAux num_envs r rest (rpos + num_envs)
            { st' with interval_term_time_left := st'.interval_term_time_left ++ [t] }
    else if c.mode = "reset" then
      if c.min_step_count_between_reset < 0 then .error .configError
      else
        prepareAux num_envs r rest rpos
          { st' with reset_term_last_triggered_step_id :=
              st'.reset_term_last_triggered_step_id ++ [List.replicate num_envs 0] }
    else prepareAux num_envs r rest rpos st'

def emptyState : EventManagerState := ⟨[], [], [], []⟩

/-- `EventManager._prepare_terms`, run at construction time. -/
def prepare_terms (num_envs : ℕ) (r : ℕ → ℚ)
    (cfg : List (String × Option EventTermCfg)) : Except EventError EventManagerState :=
  prepareAux num_envs r cfg 0 emptyState

/-- `EventManager.active_terms`. -/
def active_terms (st : EventManagerState) : List (String × List String) :=
  st.mode_term_names

/-- `(time_left <= 0.0).nonzero().flatten()`: the positions (ascending) of the
entries that are `≤ 0`. -/
def elapsedIdx (l : List ℚ) : List ℕ :=
  (l.enum.filter (fun p => p.2 ≤ 0)).map Prod.fst

/-- `steps_since_reset[env_ids]`: tensor indexing by `slice(None)` or by an
index list.  Out-of-range indices are modelled by `getD _ 0`. -/
def gatherSteps (steps : List ℤ) : EnvArg → List ℤ
  | .sliceAll => steps
  | .idx l => l.map (fun e => steps.getD e 0)
  | .noneArg => steps

/-- `(sel >= min_step_count).nonzero().flatten()`: positions (within the
gathered selection) whose value meets the threshold. -/
def firedPositions (sel : List ℤ) (m : ℤ) : List ℕ :=
  (sel.enum.filter (fun p => m ≤ p.2)).map Prod.fst

/-- `buf[env_ids] = v` for a constant `v` (the stamping of
`_reset_term_last_triggered_step_id`). -/
def scatterConst (l : List ℤ) (idxs : List ℕ) (v : ℤ) : List ℤ :=
  idxs.foldl (fun acc e => acc.set e v) l

/-- `buf[env_ids] = vals` (the resampling of `_interval_term_time_left`). -/
def scatterVals (l : List ℚ) (idxs : List ℕ) (vals : List ℚ) : List ℚ :=
  ((idxs.zip vals).foldl (fun acc p => acc.set p.1 p.2) l)

/-- The loop-carried state of one `apply` call: the current binding of the
local variable `env_ids`, the two buffer lists, the random-stream position,
and the calls made so far. -/
structure LoopState where
  envArg : EnvArg
  ibufs : List (List ℚ)
  rbufs : List (List ℤ)
  rpos : ℕ
  invs : List Invocation
deriving DecidableEq, Repr

/-- One iteration of the `for index, term_cfg in enumerate(self._mode_term_cfgs[mode])`
loop in `EventManager.apply`. -/
def applyTermStep (mode : String) (d : ℚ) (gv : ℤ) (r : ℕ → ℚ) (names : List String)
    (i : ℕ) (c : EventTermCfg) (ls : LoopState) : LoopState :=
  if mode = "interval" then
    -- time_left = self._interval_term_time_left[index]; time_left -= dt  (in place)
    let lohi := c.interval_range_s.getD (0, 0)
    let buf := (ls.ibufs.getD i []).map (fun t => t - d)
    if c.is_global_time then
      if buf.getD 0 0 ≤ 0 then
        let sampled := [r ls.rpos * (lohi.2 - lohi.1) + lohi.1]
        { ls with
          ibufs := ls.ibufs.set i sampled,
          rpos := ls.rpos + 1,
          invs := ls.invs ++ [⟨names.getD i "", ls.envArg⟩] }
      else
        { ls with ibufs := ls.ibufs.set i buf }
    else
      -- env_ids = (time_left <= 0.0).nonzero().flatten()   (over ALL environments)
      let fired := elapsedIdx buf
      if fired = [] then
        { ls with envArg := .idx fired, ibufs := ls.ibufs.set i buf }
      else
        let vals := (List.range fired.length).map
          (fun j => r (ls.rpos + j) * (lohi.2 - lohi.1) + lohi.1)
        { ls with
          envArg := .idx fired,
          ibufs := ls.ibufs.set i (scatterVals buf fired vals),
          rpos := ls.rpos + fired.length,
          invs := ls.invs ++ [⟨names.getD i "", .idx fired⟩] }
  else if mode = "reset" then
    let m := c.min_step_count_between_reset
    if m = 0 then
      -- self._reset_term_last_triggered_step_id[index][:] = global_env_step_count
      let last := ls.rbufs.getD i []
      { ls with
        rbufs := ls.rbufs.set i (List.replicate last.length gv),
        invs := ls.invs ++ [⟨names.getD i "", ls.envArg⟩] }
    else
      let ea := if ls.envArg = .noneArg then .sliceAll else ls.envArg
      let last := ls.rbufs.getD i []
      let steps := last.map (fun x => gv - x)
      let fired := firedPositions (gatherSteps steps ea) m
      if fired = [] then
        { ls with envArg := .idx fired }
      else
        { ls with
          envArg := .idx fired,
          rbufs := ls.rbufs.set i (scatterConst last fired gv),
          invs := ls.invs ++ [⟨names.getD i "", .idx fired⟩] }
  else
    -- any other mode: no gating logic, call the term directly
    { ls with invs := ls.invs ++ [⟨names.getD i "", ls.envArg⟩] }

/-- The term loop of `EventManager.apply`. -/
def applyLoop (mode : String) (d : ℚ) (gv : ℤ) (r : ℕ → ℚ) (names : List String) :
    List EventTermCfg → ℕ → LoopState → LoopState
  | [], _, ls => ls
  | c :: cs, i, ls =>
    applyLoop mode d gv r names cs (i + 1) (applyTermStep mode d gv r names i c ls)

/-- `EventManager.apply(mode, env_ids, dt, global_env_step_count)`.
Returns the updated manager state and the list of term calls made. -/
def apply (st : EventManagerState) (mode : String) (env_ids : Option (List ℕ))
    (dt : Option ℚ) (global_env_step_count : Option ℤ) (r : ℕ → ℚ) :
    Except EventError (EventManagerState × List Invocation) :=
  -- if mode not in self._mode_term_names: log_warn; return
  if (alistFind mode st.mode_term_names).isNone then .ok (st, [])
  else if mode = "interval" ∧ dt = Option.none then .error .valueError
  else if mode = "reset" ∧ global_env_step_count = Option.none then .error .valueError
  else
    let names := (alistFind mode st.mode_term_names).getD []
    let cfgs := (alistFind mode st.mode_term_cfgs).getD []
    let ea : EnvArg := match env_ids with
      | Option.none => .noneArg
      | some l => .idx l
    let ls := applyLoop mode (dt.getD 0) (global_env_step_count.getD 0) r names cfgs 0
      ⟨ea, st.interval_term_time_left, st.reset_term_last_triggered_step_id, 0, []⟩
    .ok ({ st with
      interval_term_time_left := ls.ibufs,
      reset_term_last_triggered_step_id := ls.rbufs }, ls.invs)

/-- `for mode, terms in self._mode_term_names.items(): if term_name in terms`:
the first mode containing the name, together with `terms.index(term_name)`. -/
def findTermMode (n : String) : List (String × List String) → Option (String × ℕ)
  | [] => Option.none
  | (mode, terms) :: rest =>
    if n ∈ terms then some (mode, terms.indexOf n) else findTermMode n rest

/-- `EventManager.set_term_cfg`. -/
def set_term_cfg (st : EventManagerState) (n : String) (c : EventTermCfg) :
    Except EventError EventManagerState :=
  match findTermMode n st.mode_term_names with
  | some (mode, i) =>
    .ok { st with mode_term_cfgs := alistUpdate mode (fun l => l.set i c) st.mode_term_cfgs }
  | Option.none => .error .nameNotFound

/-- `EventManager.get_term_cfg`. -/
def get_term_cfg (st : EventManagerState) (n : String) : Except EventError EventTermCfg :=
  match findTermMode n st.mode_term_names with
  | some (mode, i) => .ok (((alistFind mode st.mode_term_cfgs).getD []).getD i defaultCfg)
  | Option.none => .error .nameNotFound

/-- Structural invariant every Python `EventManager` satisfies by construction:
`_mode_term_names` and `_mode_term_cfgs` are dicts over the same keys (no
duplicates), and the per-mode name and cfg lists have equal lengths. -/
def wfState (st : EventManagerState) : Prop :=
  st.mode_term_names.map Prod.fst = st.mode_term_cfgs.map Prod.fst ∧
  (st.mode_term_names.map Prod.fst).Nodup ∧
  ∀ p ∈ st.mode_term_names.zip st.mode_term_cfgs, p.1.2.length = p.2.2.length

/-- Configuration items that allocate an `_interval_term_time_left` buffer:
enabled terms of mode `"interval"`. -/
def enabledInterval (p : String × Option EventTermCfg) : Bool :=
  match p.2 with
  | some c => c.mode = "interval"
  | Option.none => false

/-- Configuration items that allocate a `_reset_term_last_triggered_step_id`
buffer: enabled terms of mode `"reset"`. -/
def enabledReset (p : String × Option EventTermCfg) : Bool :=
  match p.2 with
  | some c => c.mode = "reset"
  | Option.none => false

/-- A single-term "interval"-mode manager holding one per-environment buffer
with a single environment whose time-left is `b`. -/
def intervalState (c : EventTermCfg) (b : ℚ) : EventManagerState :=
  ⟨[("interval", ["term"])], [("interval", [c])], [[b]], []⟩

/-- The manager state after `k` repeated calls
`apply("interval", dt=d)`, call `k` drawing its samples from `rs k`. -/
def iterState (d : ℚ) (rs : ℕ → ℕ → ℚ) (st : EventManagerState) : ℕ → EventManagerState
  | 0 => st
  | k + 1 =>
    match apply (iterState d rs st k) "interval" Option.none (some d) Option.none (rs k) with
    | .ok p => p.1
    | .error _ => iterState d rs st k

/-- The calls made by the `(k+1)`-th repeated `apply("interval", dt=d)`. -/
def iterInvs (d : ℚ) (rs : ℕ → ℕ → ℚ) (st : EventManagerState) (k : ℕ) : List Invocation :=
  match apply (iterState d rs st k) "interval" Option.none (some d) Option.none (rs k) with
  | .ok p => p.2
  | .error _ => []

/-- A constant-zero random stream (each concrete draw is a legal sample). -/
def rzero : ℕ → ℚ := fun _ => 0

/-- A random stream whose first draw is 3/4 and the rest 0. -/
def rC2 : ℕ → ℚ := fun n => if n = 0 then 3 / 4 else 0

/-- A "reset"-mode term with `min_step_count_between_reset = 1`. -/
def pushCfg1 : EventTermCfg := { mode := "reset", min_step_count_between_reset := 1 }

/-- A "reset"-mode term with the default `min_step_count_between_reset = 0`. -/
def resetCfg0 : EventTermCfg := { mode := "reset" }

/-- A per-environment "interval"-mode term with `interval_range_s = (1, 5)`. -/
def intvCfg15 : EventTermCfg := { mode := "interval", interval_range_s := some (1, 5) }

/-- A per-environment "interval"-mode term with the degenerate range (0.5, 0.5). -/
def halfCfg : EventTermCfg := { mode := "interval", interval_range_s := some (1 / 2, 1 / 2) }

/-- A per-environment "interval"-mode term with the degenerate range (1.0, 1.0). -/
def oneCfg : EventTermCfg := { mode := "interval", interval_range_s := some (1, 1) }

end OrbitEvent

namespace OrbitEvent

/-! ### List helper lemmas -/

lemma getD_set_ne {α : Type} (l : List α) {i e : ℕ} (v d : α) (h : i ≠ e) :
    (l.set i v).getD e d = l.getD e d := by
  simp [List.getD_eq_getD_get?, List.getElem?_set_ne h]

lemma getD_set_lt {α : Type} (l : List α) {i : ℕ} (v d : α) (h : i < l.length) :
    (l.set i v).getD i d = v := by
  simp [List.getD_eq_getD_get?, List.getElem?_set_eq_of_lt v h]

lemma mem_elapsedIdx {l : List ℚ} {e : ℕ} :
    e ∈ elapsedIdx l ↔ ∃ x, l.get? e = some x ∧ x ≤ 0 := by
  simp only [elapsedIdx, List.mem_map, List.mem_filter]
  constructor
  · rintro ⟨⟨i, x⟩, ⟨hmem, hx⟩, rfl⟩
    exact ⟨x, List.mem_enum_iff_get?.1 hmem, by simpa using hx⟩
  · rintro ⟨x, hget, hx⟩
    exact ⟨(e, x), ⟨List.mem_enum_iff_get?.2 hget, by simpa using hx⟩, rfl⟩

lemma mem_firedPositions {sel : List ℤ} {m : ℤ} {e : ℕ} :
    e ∈ firedPositions sel m ↔ ∃ x, sel.get? e = some x ∧ m ≤ x := by
  simp only [firedPositions, List.mem_map, List.mem_filter]
  constructor
  · rintro ⟨⟨i, x⟩, ⟨hmem, hx⟩, rfl⟩
    exact ⟨x, List.mem_enum_iff_get?.1 hmem, by simpa using hx⟩
  · rintro ⟨x, hget, hx⟩
    exact ⟨(e, x), ⟨List.mem_enum_iff_get?.2 hget, by simpa using hx⟩, rfl⟩

lemma elapsedIdx_lt_length {l : List ℚ} {e : ℕ} (h : e ∈ elapsedIdx l) : e < l.length := by
  rcases mem_elapsedIdx.1 h with ⟨x, hx, -⟩
  by_contra hlen
  rw [List.get?_eq_none.2 (le_of_not_lt hlen)] at hx
  cases hx

lemma elapsedIdx_nodup (l : List ℚ) : (elapsedIdx l).Nodup := by
  have h : ((l.enum.filter (fun p => decide (p.2 ≤ 0))).map Prod.fst).Sublist
      (l.enum.map Prod.fst) := List.Sublist.map _ (List.filter_sublist _)
  exact List.Nodup.sublist h (List.nodup_enum_map_fst l)

lemma elapsedIdx_singleton (x : ℚ) : elapsedIdx [x] = if x ≤ 0 then [0] else [] := by
  by_cases h : x ≤ 0 <;> simp [elapsedIdx, List.enum, List.enumFrom, List.filter, h]

/-! ### Scatter lemmas -/

lemma scatterConst_cons (l : List ℤ) (i : ℕ) (rest : List ℕ) (v : ℤ) :
    scatterConst l (i :: rest) v = scatterConst (l.set i v) rest v := rfl

lemma scatterConst_length (idxs : List ℕ) (l : List ℤ) (v : ℤ) :
    (scatterConst l idxs v).length = l.length := by
  induction idxs generalizing l with
  | nil => rfl
  | cons i rest ih => rw [scatterConst_cons, ih, List.length_set]

lemma scatterConst_getD_of_not_mem {idxs : List ℕ} {l : List ℤ} {v d : ℤ} {e : ℕ}
    (h : e ∉ idxs) : (scatterConst l idxs v).getD e d = l.getD e d := by
  induction idxs generalizing l with
  | nil => rfl
  | cons i rest ih =>
    rw [scatterConst_cons, ih (fun hm => h (List.mem_cons_of_mem _ hm))]
    exact getD_set_ne l v d (fun hie => h (hie ▸ List.mem_cons_self i rest))

lemma scatterConst_getD_of_mem {idxs : List ℕ} {l : List ℤ} {v d : ℤ} {e : ℕ}
    (h : e ∈ idxs) (hlen : e < l.length) : (scatterConst l idxs v).getD e d = v := by
  induction idxs generalizing l with
  | nil => cases h
  | cons i rest ih =>
    rw [scatterConst_cons]
    by_cases hrest : e ∈ rest
    · exact ih hrest (by rw [List.length_set]; exact hlen)
    · have hei : e = i := by
        rcases List.mem_cons.1 h with h' | h'
        · exact h'
        · exact absurd h' hrest
      subst hei
      rw [scatterConst_getD_of_not_mem hrest, getD_set_lt l v d hlen]

lemma scatterVals_cons (l : List ℚ) (i : ℕ) (is : List ℕ) (x : ℚ) (xs : List ℚ) :
    scatterVals l (i :: is) (x :: xs) = scatterVals (l.set i x) is xs := rfl

lemma scatterVals_nil_vals (l : List ℚ) (idxs : List ℕ) :
    scatterVals l idxs [] = l := by cases idxs <;> rfl

lemma scatterVals_length (idxs : List ℕ) (vals : List ℚ) (l : List ℚ) :
    (scatterVals l idxs vals).length = l.length := by
  induction idxs generalizing l vals with
  | nil => rfl
  | cons i rest ih =>
    cases vals with
    | nil => rw [scatterVals_nil_vals]
    | cons x xs => rw [scatterVals_cons, ih, List.length_set]

lemma scatterVals_getD_of_not_mem {idxs : List ℕ} {vals : List ℚ} {l : List ℚ} {d : ℚ} {e : ℕ}
    (h : e ∉ idxs) : (scatterVals l idxs vals).getD e d = l.getD e d := by
  induction idxs generalizing l vals with
  | nil => rfl
  | cons i rest ih =>
    cases vals with
    | nil => rw [scatterVals_nil_vals]
    | cons x xs =>
      rw [scatterVals_cons, ih (fun hm => h (List.mem_cons_of_mem _ hm))]
      exact getD_set_ne l x d (fun hie => h (hie ▸ List.mem_cons_self i rest))

lemma scatterVals_getD_nodup {idxs : List ℕ} {vals : List ℚ} {l : List ℚ} {d : ℚ} {j : ℕ}
    (hnd : idxs.Nodup) (hj : j < idxs.length) (hlen : idxs.length ≤ vals.length)
    (hb : ∀ x ∈ idxs, x < l.length) :
    (scatterVals l idxs vals).getD (idxs.getD j 0) d = vals.getD j d := by
  induction idxs generalizing l vals j with
  | nil => cases hj
  | cons i rest ih =>
    cases vals with
    | nil => simp at hlen
    | cons x xs =>
      rw [scatterVals_cons]
      cases j with
      | zero =>
        have hnotrest : i ∉ rest := (List.nodup_cons.1 hnd).1
        rw [List.getD_cons_zero, List.getD_cons_zero,
          scatterVals_getD_of_not_mem hnotrest,
          getD_set_lt l x d (hb i (List.mem_cons_self i rest))]
      | succ j' =>
        have := @ih xs (l.set i x) j' (List.nodup_cons.1 hnd).2
          (Nat.lt_of_succ_lt_succ hj) (Nat.le_of_succ_le_succ hlen)
          (fun y hy => by rw [List.length_set]; exact hb y (List.mem_cons_of_mem _ hy))
        rw [List.getD_cons_succ, List.getD_cons_succ]
        exact this

end OrbitEvent

namespace OrbitEvent

/-! ### Association-list lemmas -/

lemma alistFind_eq_none_iff {α : Type} {k : String} {l : List (String × α)} :
    alistFind k l = Option.none ↔ k ∉ l.map Prod.fst := by
  induction l with
  | nil => simp [alistFind]
  | cons p rest ih =>
    obtain ⟨k', v⟩ := p
    by_cases h : k = k' <;> simp [alistFind, h, ih]

lemma alistFind_update_self {α : Type} (k : String) (f : α → α) (l : List (String × α)) :
    alistFind k (alistUpdate k f l) = (alistFind k l).map f := by
  induction l with
  | nil => rfl
  | cons p rest ih =>
    obtain ⟨k', v⟩ := p
    by_cases h : k = k' <;> simp [alistFind, alistUpdate, h, ih]

lemma alistUpdate_keys {α : Type} (k : String) (f : α → α) (l : List (String × α)) :
    (alistUpdate k f l).map Prod.fst = l.map Prod.fst := by
  induction l with
  | nil => rfl
  | cons p rest ih =>
    obtain ⟨k', v⟩ := p
    by_cases h : k = k' <;> simp [alistUpdate, h, ih]

lemma alistUpdate_ne_key {α : Type} {k k' : String} (f : α → α) (l : List (String × α))
    (h : k ≠ k') : alistFind k' (alistUpdate k f l) = alistFind k' l := by
  induction l with
  | nil => rfl
  | cons p rest ih =>
    obtain ⟨k0, v⟩ := p
    by_cases h0 : k = k0
    · subst h0
      have hk : ¬ (k' = k) := fun h' => h h'.symm
      simp [alistUpdate, alistFind, hk]
    · by_cases h1 : k' = k0 <;> simp [alistUpdate, alistFind, h0, h1, ih]

lemma findTermMode_mem_keys {n : String} {l : List (String × List String)} {m : String}
    {i : ℕ} (h : findTermMode n l = some (m, i)) : m ∈ l.map Prod.fst := by
  induction l with
  | nil => cases h
  | cons p rest ih =>
    obtain ⟨k, ts⟩ := p
    by_cases hmem : n ∈ ts
    · simp [findTermMode, hmem] at h
      simp [h.1]
    · simp only [findTermMode, if_neg hmem] at h
      exact List.mem_cons_of_mem _ (ih h)

lemma findTermMode_spec {n : String} {l : List (String × List String)} {m : String} {i : ℕ}
    (hnd : (l.map Prod.fst).Nodup) (h : findTermMode n l = some (m, i)) :
    ∃ ts, alistFind m l = some ts ∧ n ∈ ts ∧ i = ts.indexOf n := by
  induction l with
  | nil => cases h
  | cons p rest ih =>
    obtain ⟨k, ts⟩ := p
    by_cases hmem : n ∈ ts
    · simp [findTermMode, hmem] at h
      obtain ⟨rfl, rfl⟩ := h
      exact ⟨ts, by simp [alistFind], hmem, rfl⟩
    · simp only [findTermMode, if_neg hmem] at h
      have hm : m ∈ rest.map Prod.fst := findTermMode_mem_keys h
      have hnd' : (k :: rest.map Prod.fst).Nodup := by simpa using hnd
      have hk : k ∉ rest.map Prod.fst := (List.nodup_cons.1 hnd').1
      have hne : m ≠ k := fun he => hk (he ▸ hm)
      obtain ⟨ts', h1, h2, h3⟩ := ih (by simpa using (List.nodup_cons.1 hnd').2) h
      exact ⟨ts', by simp [alistFind, hne, h1], h2, h3⟩

lemma alistFind_parallel {β γ : Type} {l1 : List (String × List β)} {l2 : List (String × List γ)}
    {m : String} {ns : List β}
    (hkeys : l1.map Prod.fst = l2.map Prod.fst)
    (hlen : ∀ p ∈ l1.zip l2, p.1.2.length = p.2.2.length)
    (h : alistFind m l1 = some ns) :
    ∃ cs, alistFind m l2 = some cs ∧ ns.length = cs.length := by
  induction l1 generalizing l2 with
  | nil => cases h
  | cons p rest ih =>
    obtain ⟨k, vs⟩ := p
    cases l2 with
    | nil => cases hkeys
    | cons q rest2 =>
      obtain ⟨k2, vs2⟩ := q
      have hk2 : k = k2 ∧ List.map Prod.fst rest = List.map Prod.fst rest2 := by
        simpa using hkeys
      obtain ⟨rfl, hrest⟩ := hk2
      by_cases hm : m = k
      · simp only [alistFind, if_pos hm] at h ⊢
        obtain rfl : vs = ns := by injection h
        refine ⟨vs2, rfl, ?_⟩
        exact hlen ((k, vs), (k, vs2))
          (by rw [List.zip_cons_cons]; exact List.mem_cons_self _ _)
      · simp only [alistFind, if_neg hm] at h ⊢
        refine ih hrest (fun p hp => hlen p ?_) h
        rw [List.zip_cons_cons]
        exact List.mem_cons_of_mem _ hp
end OrbitEvent

namespace OrbitEvent

/-! ### Claim C1 -/

/-- C1 (code bug): with two environments, a "reset" term `"push"` with
`min_step_count_between_reset = 1`, last-triggered buffer `[0, 0]` and a call
`apply("reset", env_ids=[1], global_env_step_count=5)`, environment 1 is the
only supplied index and its elapsed count is `5 ≥ 1`, so per the claim the term
must fire for environment 1 and stamp its entry (buffer `[0, 5]`).  The code
instead computes `(steps_since_reset[env_ids] >= min).nonzero()`, which yields
positions *within* `env_ids`: it invokes the term with index `[0]` (an
environment not in `env_ids` at all) and stamps environment 0's entry, leaving
environment 1's entry untouched (buffer `[5, 0]`). -/
theorem C1_reset_positional_indexing_eval :
    (prepare_terms 2 rzero [("push", some pushCfg1)]).bind
        (fun st => apply st "reset" (some [1]) Option.none (some 5) rzero) =
      .ok (⟨[("reset", ["push"])], [("reset", [pushCfg1])], [], [[5, 0]]⟩,
        [⟨"push", .idx [0]⟩]) := by
  decide

/-! ### Claim C4 -/

/-- C4 counterexample: with two environments, a "reset" term `"z"` with
`min_step_count_between_reset = 0`, and a call
`apply("reset", env_ids=[0], global_env_step_count=7)`, the claim says the
last-triggered entry of environment 1 (not in `env_ids`) is left unchanged
at `0`.  The code executes `buffer[:] = global_env_step_count`, stamping
*every* environment: the resulting buffer is `[7, 7]`, not `[7, 0]`. -/
theorem C4_counterexample :
    (prepare_terms 2 rzero [("z", some resetCfg0)]).bind
        (fun st => apply st "reset" (some [0]) Option.none (some 7) rzero) =
      .ok (⟨[("reset", ["z"])], [("reset", [resetCfg0])], [], [[7, 7]]⟩,
        [⟨"z", .idx [0]⟩]) := by
  decide

/-! ### Claim C5 -/

/-- C5 counterexample: on a manager with no configured terms at all,
`apply("interval", dt=None)` and `apply("reset", global_env_step_count=None)`
do NOT raise: the unknown-mode check (`mode not in self._mode_term_names`)
runs first and returns silently, contradicting the claim that a `ValueError`
is raised *whenever* `mode == "interval"` and `dt is None` (resp. "reset" and
a missing step count). -/
theorem C5_counterexample :
    apply emptyState "interval" Option.none Option.none Option.none rzero
        = .ok (emptyState, []) ∧
    apply emptyState "reset" Option.none Option.none Option.none rzero
        = .ok (emptyState, []) := by
  decide

/-- C5 as amended: *provided the mode is configured on the manager*,
`apply` with `mode = "interval"` and `dt = None` raises `ValueError`, and
likewise with `mode = "reset"` and a missing `global_env_step_count`; the
error is raised before the term loop, so no term is invoked and no buffer is
modified (the model returns `.error` with the state untouched). -/
theorem C5_caller_contract (st : EventManagerState) (e : Option (List ℕ))
    (g : Option ℤ) (dt : Option ℚ) (r : ℕ → ℚ) :
    ((alistFind "interval" st.mode_term_names).isSome →
      apply st "interval" e Option.none g r = .error .valueError) ∧
    ((alistFind "reset" st.mode_term_names).isSome →
      apply st "reset" e dt Option.none r = .error .valueError) := by
  constructor
  · intro h
    rw [apply.eq_def]
    simp [Option.isNone_iff_eq_none, Option.ne_none_iff_isSome.2 h]
  · intro h
    rw [apply.eq_def]
    simp [Option.isNone_iff_eq_none, Option.ne_none_iff_isSome.2 h]

/-- Witness for `C5_caller_contract` at a concrete manager configured with
one "interval" term and one "reset" term. -/
theorem C5_caller_contract_witness :
    apply ⟨[("interval", ["i"]), ("reset", ["z"])],
        [("interval", [intvCfg15]), ("reset", [resetCfg0])], [[1, 1]], [[0, 0]]⟩
        "interval" Option.none Option.none (some 3) rzero = .error .valueError ∧
    apply ⟨[("interval", ["i"]), ("reset", ["z"])],
        [("interval", [intvCfg15]), ("reset", [resetCfg0])], [[1, 1]], [[0, 0]]⟩
        "reset" Option.none (some 1) Option.none rzero = .error .valueError := by
  constructor
  · exact (C5_caller_contract _ Option.none (some 3) Option.none rzero).1 (by decide)
  · exact (C5_caller_contract _ Option.none (some 3) (some 1) rzero).2 (by decide)

/-! ### Claim C6 -/

/-- C6: `apply` with a mode string for which no term was configured is a
no-op: it returns without error, makes no term invocation, and leaves the
whole manager state (both timing and gating buffers) unchanged.  (The
`carb.log_warn` call it performs has no effect on manager state and is not
modelled.) -/
theorem C6_unknown_mode_noop (st : EventManagerState) (mode : String)
    (e : Option (List ℕ)) (dt : Option ℚ) (g : Option ℤ) (r : ℕ → ℚ)
    (h : alistFind mode st.mode_term_names = Option.none) :
    apply st mode e dt g r = .ok (st, []) := by
  rw [apply.eq_def]
  simp [h]

/-- Witness for `C6_unknown_mode_noop`: a manager configured only with a
"reset" term, applied with the unconfigured mode "startup". -/
theorem C6_unknown_mode_noop_witness :
    apply ⟨[("reset", ["z"])], [("reset", [resetCfg0])], [], [[0, 0]]⟩
        "startup" Option.none Option.none Option.none rzero =
      .ok (⟨[("reset", ["z"])], [("reset", [resetCfg0])], [], [[0, 0]]⟩, []) :=
  C6_unknown_mode_noop _ _ _ _ _ _ (by decide)

/-! ### Claim C9 -/

/-- C9: on any structurally well-formed manager state (parallel name/cfg
dicts, as `_prepare_terms` always produces), `set_term_cfg(name, cfg)`
followed by `get_term_cfg(name)` returns exactly `cfg` — both resolve the
name by scanning the modes in order and taking the first match — and for a
name configured in no mode both operations raise the name-not-found error. -/
theorem C9_set_get_round_trip (st : EventManagerState) (n : String) (c : EventTermCfg)
    (hwf : wfState st) :
    ((findTermMode n st.mode_term_names).isSome →
      ∃ st', set_term_cfg st n c = .ok st' ∧ get_term_cfg st' n = .ok c) ∧
    (findTermMode n st.mode_term_names = Option.none →
      set_term_cfg st n c = .error .nameNotFound ∧
      get_term_cfg st n = .error .nameNotFound) := by
  obtain ⟨hkeys, hnd, hlen⟩ := hwf
  constructor
  · intro hsome
    obtain ⟨⟨m, i⟩, hfind⟩ := Option.isSome_iff_exists.1 hsome
    obtain ⟨ts, hts, hmem, hidx⟩ := findTermMode_spec hnd hfind
    obtain ⟨cs, hcs, hlen2⟩ := alistFind_parallel hkeys hlen hts
    refine ⟨EventManagerState.mk st.mode_term_names
      (alistUpdate m (fun l => l.set i c) st.mode_term_cfgs)
      st.interval_term_time_left st.reset_term_last_triggered_step_id, ?_, ?_⟩
    · unfold set_term_cfg
      rw [hfind]
    · unfold get_term_cfg
      simp only [hfind, alistFind_update_self, hcs, Option.map_some', Option.getD_some]
      subst hidx
      have hi : ts.indexOf n < cs.length := hlen2 ▸ List.indexOf_lt_length.2 hmem
      rw [getD_set_lt _ _ _ hi]
  · intro hnone
    constructor
    · unfold set_term_cfg
      rw [hnone]
    · unfold get_term_cfg
      rw [hnone]

/-- Witness for `C9_set_get_round_trip`: a two-mode manager; the round trip
for the configured name `"push"` and the not-found error for `"nope"`. -/
theorem C9_set_get_round_trip_witness :
    (∃ st', set_term_cfg ⟨[("interval", ["i"]), ("reset", ["push"])],
        [("interval", [intvCfg15]), ("reset", [pushCfg1])], [[1, 1]], [[0, 0]]⟩
        "push" resetCfg0 = .ok st' ∧ get_term_cfg st' "push" = .ok resetCfg0) ∧
    (set_term_cfg ⟨[("interval", ["i"]), ("reset", ["push"])],
        [("interval", [intvCfg15]), ("reset", [pushCfg1])], [[1, 1]], [[0, 0]]⟩
        "nope" resetCfg0 = .error .nameNotFound ∧
      get_term_cfg ⟨[("interval", ["i"]), ("reset", ["push"])],
        [("interval", [intvCfg15]), ("reset", [pushCfg1])], [[1, 1]], [[0, 0]]⟩
        "nope" = .error .nameNotFound) := by
  constructor
  · exact (C9_set_get_round_trip _ "push" resetCfg0
      ⟨by decide, by decide, by decide⟩).1 (by decide)
  · exact (C9_set_get_round_trip _ "nope" resetCfg0
      ⟨by decide, by decide, by decide⟩).2 (by decide)

end OrbitEvent

namespace OrbitEvent

/-! ### Step-function equation lemmas and small getD helpers -/

lemma getD_map_of_lt {α β : Type} (f : α → β) {l : List α} {e : ℕ} (h : e < l.length)
    (d : α) (d' : β) : (l.map f).getD e d' = f (l.getD e d) := by
  rw [List.getD_eq_getElem (l.map f) d' (by simpa using h), List.getD_eq_getElem l d h,
    List.getElem_map]

lemma getD_replicate {α : Type} {n e : ℕ} (a d : α) (h : e < n) :
    (List.replicate n a).getD e d = a := by
  rw [List.getD_eq_getElem (List.replicate n a) d (by simpa using h), List.getElem_replicate]

lemma applyLoop_cons (mode : String) (d : ℚ) (gv : ℤ) (r : ℕ → ℚ) (names : List String)
    (c : EventTermCfg) (cs : List EventTermCfg) (i : ℕ) (ls : LoopState) :
    applyLoop mode d gv r names (c :: cs) i ls =
      applyLoop mode d gv r names cs (i + 1) (applyTermStep mode d gv r names i c ls) := rfl

lemma applyTermStep_interval_perEnv (d : ℚ) (gv : ℤ) (r : ℕ → ℚ) (names : List String)
    (i : ℕ) (c : EventTermCfg) (ls : LoopState) (lo up : ℚ)
    (hglob : c.is_global_time = false) (hrange : c.interval_range_s = some (lo, up)) :
    applyTermStep "interval" d gv r names i c ls =
      (let buf := (ls.ibufs.getD i []).map (fun t => t - d)
       let fired := elapsedIdx buf
       if fired = [] then { ls with envArg := .idx fired, ibufs := ls.ibufs.set i buf }
       else
         { ls with
           envArg := .idx fired,
           ibufs := ls.ibufs.set i (scatterVals buf fired
             ((List.range fired.length).map (fun j => r (ls.rpos + j) * (up - lo) + lo))),
           rpos := ls.rpos + fired.length,
           invs := ls.invs ++ [⟨names.getD i "", .idx fired⟩] }) := by
  rw [applyTermStep]
  simp [hrange, hglob]

lemma applyTermStep_interval_global (d : ℚ) (gv : ℤ) (r : ℕ → ℚ) (names : List String)
    (i : ℕ) (c : EventTermCfg) (ls : LoopState) (lo up : ℚ)
    (hglob : c.is_global_time = true) (hrange : c.interval_range_s = some (lo, up)) :
    applyTermStep "interval" d gv r names i c ls =
      (let buf := (ls.ibufs.getD i []).map (fun t => t - d)
       if buf.getD 0 0 ≤ 0 then
         { ls with
           ibufs := ls.ibufs.set i [r ls.rpos * (up - lo) + lo],
           rpos := ls.rpos + 1,
           invs := ls.invs ++ [⟨names.getD i "", ls.envArg⟩] }
       else { ls with ibufs := ls.ibufs.set i buf }) := by
  rw [applyTermStep]
  simp [hrange, hglob]

lemma applyTermStep_reset_zero (d : ℚ) (gv : ℤ) (r : ℕ → ℚ) (names : List String)
    (i : ℕ) (c : EventTermCfg) (ls : LoopState)
    (hm : c.min_step_count_between_reset = 0) :
    applyTermStep "reset" d gv r names i c ls =
      { ls with
        rbufs := ls.rbufs.set i (List.replicate (ls.rbufs.getD i []).length gv),
        invs := ls.invs ++ [⟨names.getD i "", ls.envArg⟩] } := by
  rw [applyTermStep]
  simp [hm]

lemma applyTermStep_reset_pos (d : ℚ) (gv : ℤ) (r : ℕ → ℚ) (names : List String)
    (i : ℕ) (c : EventTermCfg) (ls : LoopState)
    (hm : c.min_step_count_between_reset ≠ 0) :
    applyTermStep "reset" d gv r names i c ls =
      (let ea := if ls.envArg = .noneArg then .sliceAll else ls.envArg
       let fired := firedPositions
           (gatherSteps ((ls.rbufs.getD i []).map (fun x => gv - x)) ea)
           c.min_step_count_between_reset
       if fired = [] then { ls with envArg := .idx fired }
       else
         { ls with
           envArg := .idx fired,
           rbufs := ls.rbufs.set i (scatterConst (ls.rbufs.getD i []) fired gv),
           invs := ls.invs ++ [⟨names.getD i "", .idx fired⟩] }) := by
  rw [applyTermStep]
  simp [hm]

end OrbitEvent

namespace OrbitEvent

/-! ### Claim C2 -/

/-- C2 counterexample: two environments, one per-environment "interval" term
`"push"` with range `(1, 5)` whose freshly-prepared time-left buffer is
`[4, 1]`.  Calling `apply("interval", env_ids=[0], dt=2)` decrements the
buffer to `[2, -1]`: the supplied `env_ids = [0]` contains no environment
with elapsed time (env 0 has `2 > 0`), so per the claim the term must not be
invoked.  The code ignores the supplied `env_ids`, computes the elapsed set
over ALL environments, and invokes the term with `[1]` (resampling env 1 to
`3/4 * (5 - 1) + 1 = 4`). -/
theorem C2_counterexample :
    (prepare_terms 2 rC2 [("push", some intvCfg15)]).bind
        (fun st => apply st "interval" (some [0]) (some 2) Option.none rC2) =
      .ok (⟨[("interval", ["push"])], [("interval", [intvCfg15])], [[2, 4]], []⟩,
        [⟨"push", .idx [1]⟩]) ∧ (1 : ℕ) ∉ [0] := by
  constructor
  · norm_num [prepare_terms, prepareAux, addTerm, addMode, alistFind, alistUpdate,
      emptyState, intvCfg15, rC2, apply, applyLoop, applyTermStep, elapsedIdx,
      scatterVals, List.filter, List.enum, List.enumFrom, List.range, List.range.loop,
      Except.bind]
    rfl
  · decide

/-- C2 as amended: for a per-environment "interval" term, every
environment's time-left entry is decremented by `dt` in place; the fired set
is the set of environments (over ALL environments — the supplied `env_ids`
is ignored and overwritten) whose decremented time-left is at or below zero;
the term is invoked exactly when that set is nonempty, with exactly that
set; entries outside the fired set keep their decremented value, and the
`j`-th fired environment is resampled to `u * (upper - lower) + lower` with
`u` the `j`-th fresh random draw. -/
theorem C2_interval_per_env (d : ℚ) (gv : ℤ) (r : ℕ → ℚ) (names : List String)
    (i : ℕ) (c : EventTermCfg) (ls : LoopState) (lo up : ℚ)
    (hglob : c.is_global_time = false) (hrange : c.interval_range_s = some (lo, up))
    (hlen : i < ls.ibufs.length) :
    (∀ e, e ∈ elapsedIdx ((ls.ibufs.getD i []).map (fun t => t - d)) ↔
      ∃ x, (ls.ibufs.getD i []).get? e = some x ∧ x - d ≤ 0) ∧
    ((applyTermStep "interval" d gv r names i c ls).invs =
      if elapsedIdx ((ls.ibufs.getD i []).map (fun t => t - d)) = [] then ls.invs
      else ls.invs ++ [⟨names.getD i "",
        .idx (elapsedIdx ((ls.ibufs.getD i []).map (fun t => t - d)))⟩]) ∧
    ((applyTermStep "interval" d gv r names i c ls).envArg =
      .idx (elapsedIdx ((ls.ibufs.getD i []).map (fun t => t - d)))) ∧
    (∀ e, e < (ls.ibufs.getD i []).length →
      e ∉ elapsedIdx ((ls.ibufs.getD i []).map (fun t => t - d)) →
      ((applyTermStep "interval" d gv r names i c ls).ibufs.getD i []).getD e 0 =
        (ls.ibufs.getD i []).getD e 0 - d) ∧
    (∀ j, j < (elapsedIdx ((ls.ibufs.getD i []).map (fun t => t - d))).length →
      ((applyTermStep "interval" d gv r names i c ls).ibufs.getD i []).getD
          ((elapsedIdx ((ls.ibufs.getD i []).map (fun t => t - d))).getD j 0) 0 =
        r (ls.rpos + j) * (up - lo) + lo) := by
  have hstep := applyTermStep_interval_perEnv d gv r names i c ls lo up hglob hrange
  simp only [] at hstep
  refine ⟨?_, ?_, ?_, ?_, ?_⟩
  · intro e
    rw [mem_elapsedIdx]
    constructor
    · rintro ⟨y, hy, hley⟩
      rw [List.get?_map] at hy
      rcases Option.map_eq_some'.1 hy with ⟨x, hx, rfl⟩
      exact ⟨x, hx, hley⟩
    · rintro ⟨x, hx, hle⟩
      refine ⟨x - d, ?_, hle⟩
      rw [List.get?_map, hx]
      rfl
  · rw [hstep]
    by_cases hf : elapsedIdx ((ls.ibufs.getD i []).map (fun t => t - d)) = []
    · rw [if_pos hf, if_pos hf]
    · rw [if_neg hf, if_neg hf]
  · rw [hstep]
    by_cases hf : elapsedIdx ((ls.ibufs.getD i []).map (fun t => t - d)) = []
    · rw [if_pos hf]
    · rw [if_neg hf]
  · intro e he hnot
    rw [hstep]
    by_cases hf : elapsedIdx ((ls.ibufs.getD i []).map (fun t => t - d)) = []
    · rw [if_pos hf]
      show ((ls.ibufs.set i _).getD i []).getD e 0 = _
      rw [getD_set_lt _ _ _ hlen, getD_map_of_lt (fun t => t - d) he 0 0]
    · rw [if_neg hf]
      show ((ls.ibufs.set i _).getD i []).getD e 0 = _
      rw [getD_set_lt _ _ _ hlen, scatterVals_getD_of_not_mem hnot,
        getD_map_of_lt (fun t => t - d) he 0 0]
  · intro j hj
    have hf : elapsedIdx ((ls.ibufs.getD i []).map (fun t => t - d)) ≠ [] := by
      intro h0
      rw [h0] at hj
      simp at hj
    rw [hstep, if_neg hf]
    show ((ls.ibufs.set i _).getD i []).getD _ 0 = _
    rw [getD_set_lt _ _ _ hlen]
    rw [scatterVals_getD_nodup (elapsedIdx_nodup _) hj
      (by simp [List.length_map, List.length_range])
      (fun x hx => elapsedIdx_lt_length hx)]
    rw [getD_map_of_lt (fun j => r (ls.rpos + j) * (up - lo) + lo)
      (by rw [List.length_range]; exact hj) 0 0]
    rw [List.getD_eq_getElem (List.range _) 0 (by rw [List.length_range]; exact hj),
      List.getElem_range]

/-- Witness for `C2_interval_per_env`: the concrete loop state of the
counterexample run (buffer `[4, 1]`, `dt = 2`), term at index 0. -/
theorem C2_interval_per_env_witness :
    (∀ e, e ∈ elapsedIdx (([4, 1] : List ℚ).map (fun t => t - 2)) ↔
      ∃ x, ([4, 1] : List ℚ).get? e = some x ∧ x - 2 ≤ 0) ∧
    ((applyTermStep "interval" 2 0 rC2 ["push"] 0 intvCfg15
        ⟨.idx [0], [[4, 1]], [], 0, []⟩).invs =
      if elapsedIdx (([4, 1] : List ℚ).map (fun t => t - 2)) = [] then []
      else [] ++ [⟨"push", .idx (elapsedIdx (([4, 1] : List ℚ).map (fun t => t - 2)))⟩]) ∧
    ((applyTermStep "interval" 2 0 rC2 ["push"] 0 intvCfg15
        ⟨.idx [0], [[4, 1]], [], 0, []⟩).envArg =
      .idx (elapsedIdx (([4, 1] : List ℚ).map (fun t => t - 2)))) ∧
    (∀ e, e < ([4, 1] : List ℚ).length →
      e ∉ elapsedIdx (([4, 1] : List ℚ).map (fun t => t - 2)) →
      ((applyTermStep "interval" 2 0 rC2 ["push"] 0 intvCfg15
          ⟨.idx [0], [[4, 1]], [], 0, []⟩).ibufs.getD 0 []).getD e 0 =
        ([4, 1] : List ℚ).getD e 0 - 2) ∧
    (∀ j, j < (elapsedIdx (([4, 1] : List ℚ).map (fun t => t - 2))).length →
      ((applyTermStep "interval" 2 0 rC2 ["push"] 0 intvCfg15
          ⟨.idx [0], [[4, 1]], [], 0, []⟩).ibufs.getD 0 []).getD
          ((elapsedIdx (([4, 1] : List ℚ).map (fun t => t - 2))).getD j 0) 0 =
        rC2 (0 + j) * (5 - 1) + 1) :=
  C2_interval_per_env 2 0 rC2 ["push"] 0 intvCfg15 ⟨.idx [0], [[4, 1]], [], 0, []⟩ 1 5
    (by decide) (by decide) (by decide)

/-- C4 as amended: for a "reset" term with `min_step_count_between_reset = 0`
the term is invoked with the `env_ids` binding passed through unchanged (so
"for all of `env_ids`"), but the last-triggered-step buffer is stamped to
`global_env_step_count` for ALL environments — including those not in
`env_ids` — not only for the supplied indices; other terms' buffers are
untouched. -/
theorem C4_reset_zero_gate (d : ℚ) (gv : ℤ) (r : ℕ → ℚ) (names : List String) (i : ℕ)
    (c : EventTermCfg) (ls : LoopState)
    (hm : c.min_step_count_between_reset = 0) (hilt : i < ls.rbufs.length) :
    (applyTermStep "reset" d gv r names i c ls).invs
        = ls.invs ++ [⟨names.getD i "", ls.envArg⟩] ∧
    (applyTermStep "reset" d gv r names i c ls).envArg = ls.envArg ∧
    (∀ e, e < (ls.rbufs.getD i []).length →
      ((applyTermStep "reset" d gv r names i c ls).rbufs.getD i []).getD e 0 = gv) ∧
    (∀ j, j ≠ i →
      (applyTermStep "reset" d gv r names i c ls).rbufs.getD j []
        = ls.rbufs.getD j []) := by
  have hstep := applyTermStep_reset_zero d gv r names i c ls hm
  refine ⟨by rw [hstep], by rw [hstep], ?_, ?_⟩
  · intro e he
    rw [hstep]
    show ((ls.rbufs.set i _).getD i []).getD e 0 = gv
    rw [getD_set_lt _ _ _ hilt, getD_replicate _ _ he]
  · intro j hj
    rw [hstep]
    show (ls.rbufs.set i _).getD j [] = ls.rbufs.getD j []
    exact getD_set_ne _ _ _ (fun h => hj h.symm)

/-- Witness for `C4_reset_zero_gate`: the counterexample's loop state (two
environments, buffer `[0, 0]`, `env_ids = [0]`, step count 7). -/
theorem C4_reset_zero_gate_witness :
    (applyTermStep "reset" 0 7 rzero ["z"] 0 resetCfg0
        ⟨.idx [0], [], [[0, 0]], 0, []⟩).invs = [] ++ [⟨"z", .idx [0]⟩] ∧
    (applyTermStep "reset" 0 7 rzero ["z"] 0 resetCfg0
        ⟨.idx [0], [], [[0, 0]], 0, []⟩).envArg = .idx [0] ∧
    (∀ e, e < (([[0, 0]] : List (List ℤ)).getD 0 []).length →
      ((applyTermStep "reset" 0 7 rzero ["z"] 0 resetCfg0
          ⟨.idx [0], [], [[0, 0]], 0, []⟩).rbufs.getD 0 []).getD e 0 = 7) ∧
    (∀ j, j ≠ 0 →
      (applyTermStep "reset" 0 7 rzero ["z"] 0 resetCfg0
          ⟨.idx [0], [], [[0, 0]], 0, []⟩).rbufs.getD j []
        = ([[0, 0]] : List (List ℤ)).getD j []) :=
  C4_reset_zero_gate 0 7 rzero ["z"] 0 resetCfg0 ⟨.idx [0], [], [[0, 0]], 0, []⟩
    (by decide) (by decide)

end OrbitEvent

namespace OrbitEvent

/-! ### Claim C3 -/

lemma iterState_succ (d : ℚ) (rs : ℕ → ℕ → ℚ) (st : EventManagerState) (k : ℕ) :
    iterState d rs st (k + 1) =
      (match apply (iterState d rs st k) "interval" Option.none (some d) Option.none
          (rs k) with
       | .ok p => p.1
       | .error _ => iterState d rs st k) := rfl

lemma iterInvs_eq (d : ℚ) (rs : ℕ → ℕ → ℚ) (st : EventManagerState) (k : ℕ) :
    iterInvs d rs st k =
      (match apply (iterState d rs st k) "interval" Option.none (some d) Option.none
          (rs k) with
       | .ok p => p.2
       | .error _ => []) := rfl

/-- Behaviour of one `apply("interval", dt=d)` call on a single-term
per-environment manager with one environment, degenerate range `(lo, lo)` and
time-left `b`: if `b - d` has reached zero the term fires (for env 0) and the
buffer is resampled to exactly `lo`; otherwise nothing fires and the buffer
keeps the decremented value. -/
lemma apply_intervalState (c : EventTermCfg) (lo : ℚ)
    (hglob : c.is_global_time = false) (hrange : c.interval_range_s = some (lo, lo))
    (b d : ℚ) (r : ℕ → ℚ) :
    apply (intervalState c b) "interval" Option.none (some d) Option.none r =
      (if b - d ≤ 0 then .ok (intervalState c lo, [⟨"term", .idx [0]⟩])
       else .ok (intervalState c (b - d), [])) := by
  have happly : apply (intervalState c b) "interval" Option.none (some d) Option.none r =
      .ok ({ intervalState c b with
        interval_term_time_left :=
          (applyTermStep "interval" d 0 r ["term"] 0 c ⟨.noneArg, [[b]], [], 0, []⟩).ibufs,
        reset_term_last_triggered_step_id :=
          (applyTermStep "interval" d 0 r ["term"] 0 c ⟨.noneArg, [[b]], [], 0, []⟩).rbufs },
        (applyTermStep "interval" d 0 r ["term"] 0 c ⟨.noneArg, [[b]], [], 0, []⟩).invs) := rfl
  have hstep := applyTermStep_interval_perEnv d 0 r ["term"] 0 c
    ⟨.noneArg, [[b]], [], 0, []⟩ lo lo hglob hrange
  simp only [] at hstep
  have hbuf : (([[b]] : List (List ℚ)).getD 0 []).map (fun t => t - d) = [b - d] := rfl
  rw [hbuf] at hstep
  rw [elapsedIdx_singleton (b - d)] at hstep
  by_cases hb : b - d ≤ 0
  · rw [if_pos hb] at *
    have hne : ([0] : List ℕ) ≠ [] := by decide
    rw [if_neg hne] at hstep
    rw [happly, hstep]
    have hv : scatterVals [b - d] [0]
        (List.map (fun j => r (0 + j) * (lo - lo) + lo) (List.range ([0] : List ℕ).length)) =
        [lo] := by
      show [r (0 + 0) * (lo - lo) + lo] = [lo]
      rw [sub_self, mul_zero, zero_add]
    rw [hv]
    rfl
  · rw [if_neg hb] at *
    have he : ([] : List ℕ) = [] := rfl
    rw [if_pos he] at hstep
    rw [happly, hstep]
    rfl

lemma iterState_half (rs : ℕ → ℕ → ℚ) : ∀ k,
    iterState (1 / 2) rs (intervalState halfCfg (1 / 2)) k = intervalState halfCfg (1 / 2)
  | 0 => rfl
  | (k + 1) => by
    rw [iterState_succ, iterState_half rs k,
      apply_intervalState halfCfg (1 / 2) rfl rfl (1 / 2) (1 / 2) (rs k),
      if_pos (by norm_num)]

lemma iterState_one (rs : ℕ → ℕ → ℚ) : ∀ k,
    iterState (1 / 2) rs (intervalState oneCfg 1) k =
      intervalState oneCfg (if k % 2 = 0 then 1 else 1 / 2)
  | 0 => rfl
  | (k + 1) => by
    rw [iterState_succ, iterState_one rs k]
    by_cases hk : k % 2 = 0
    · rw [if_pos hk, apply_intervalState oneCfg 1 rfl rfl 1 (1 / 2) (rs k),
        if_neg (by norm_num)]
      have h1 : (k + 1) % 2 = 1 := by omega
      norm_num [h1]
    · rw [if_neg hk, apply_intervalState oneCfg 1 rfl rfl (1 / 2) (1 / 2) (rs k),
        if_pos (by norm_num)]
      have h0 : (k + 1) % 2 = 0 := by omega
      norm_num [h0]

/-- C3: a per-environment interval term with the degenerate range
`(0.5, 0.5)` (one environment) is prepared with initial time-left exactly
`0.5` (for ANY random stream, since the range is degenerate), and under
repeated `apply("interval", dt=0.5)` its callable is invoked on every call;
a term with range `(1.0, 1.0)` is prepared with time-left exactly `1.0` and
is invoked on exactly every second call (calls are counted from zero here:
call `k` fires iff `k` is odd, i.e. the 2nd, 4th, ... calls fire). -/
theorem C3_degenerate_intervals (r : ℕ → ℚ) (rs : ℕ → ℕ → ℚ) (k : ℕ) :
    prepare_terms 1 r [("term", some halfCfg)] = .ok (intervalState halfCfg (1 / 2)) ∧
    prepare_terms 1 r [("term", some oneCfg)] = .ok (intervalState oneCfg 1) ∧
    iterInvs (1 / 2) rs (intervalState halfCfg (1 / 2)) k = [⟨"term", .idx [0]⟩] ∧
    iterInvs (1 / 2) rs (intervalState oneCfg 1) k =
      (if k % 2 = 1 then [⟨"term", .idx [0]⟩] else []) := by
  refine ⟨?_, ?_, ?_, ?_⟩
  · have h : prepare_terms 1 r [("term", some halfCfg)] =
        .ok ⟨[("interval", ["term"])], [("interval", [halfCfg])],
          [[r (0 + 0) * (1 / 2 - 1 / 2) + 1 / 2]], []⟩ := rfl
    rw [h]
    norm_num [intervalState]
  · have h : prepare_terms 1 r [("term", some oneCfg)] =
        .ok ⟨[("interval", ["term"])], [("interval", [oneCfg])],
          [[r (0 + 0) * (1 - 1) + 1]], []⟩ := rfl
    rw [h]
    norm_num [intervalState]
  · rw [iterInvs_eq, iterState_half rs k,
      apply_intervalState halfCfg (1 / 2) rfl rfl (1 / 2) (1 / 2) (rs k),
      if_pos (by norm_num)]
  · rw [iterInvs_eq, iterState_one rs k]
    by_cases hk : k % 2 = 0
    · rw [if_pos hk, apply_intervalState oneCfg 1 rfl rfl 1 (1 / 2) (rs k),
        if_neg (by norm_num), if_neg (by omega)]
    · rw [if_neg hk, apply_intervalState oneCfg 1 rfl rfl (1 / 2) (1 / 2) (rs k),
        if_pos (by norm_num), if_pos (by omega)]

end OrbitEvent

namespace OrbitEvent

/-! ### Claim C7 -/

lemma prepareAux_error_of_bad (num_envs : ℕ) (r : ℕ → ℚ)
    (items : List (String × Option EventTermCfg)) :
    ∀ (rpos : ℕ) (st : EventManagerState),
    (∃ p ∈ items, ∃ c, p.2 = some c ∧
        ((c.mode = "interval" ∧ c.interval_range_s = Option.none) ∨
         (c.mode = "reset" ∧ c.min_step_count_between_reset < 0))) →
    prepareAux num_envs r items rpos st = .error .configError := by
  induction items with
  | nil =>
    rintro rpos st ⟨p, hp, -⟩
    cases hp
  | cons hd rest ih =>
    obtain ⟨nm, oc⟩ := hd
    rintro rpos st ⟨p, hp, c, hpc, hbad⟩
    rcases List.mem_cons.1 hp with heq | hprest
    · subst heq
      cases oc with
      | none => cases hpc
      | some c0 =>
        obtain rfl : c0 = c := by injection hpc
        rcases hbad with ⟨hmode, hrange⟩ | ⟨hmode, hneg⟩
        · simp only [prepareAux, if_pos hmode, hrange]
        · have hnotint : ¬ (c0.mode = "interval") := by rw [hmode]; decide
          simp only [prepareAux, if_neg hnotint, if_pos hmode, if_pos hneg]
    · have hrest : ∃ p ∈ rest, ∃ c, p.2 = some c ∧
          ((c.mode = "interval" ∧ c.interval_range_s = Option.none) ∨
           (c.mode = "reset" ∧ c.min_step_count_between_reset < 0)) :=
        ⟨p, hprest, c, hpc, hbad⟩
      cases oc with
      | none => simpa only [prepareAux] using ih rpos st hrest
      | some c0 =>
        by_cases h1 : c0.mode = "interval"
        · cases hr : c0.interval_range_s with
          | none => simp only [prepareAux, if_pos h1, hr]
          | some q =>
            obtain ⟨lo, up⟩ := q
            by_cases hg : c0.is_global_time
            · simp only [prepareAux, if_pos h1, hr, if_pos hg]
              exact ih _ _ hrest
            · simp only [prepareAux, if_pos h1, hr, if_neg hg]
              exact ih _ _ hrest
        · by_cases h2 : c0.mode = "reset"
          · by_cases h3 : c0.min_step_count_between_reset < 0
            · simp only [prepareAux, if_neg h1, if_pos h2, if_pos h3]
            · simp only [prepareAux, if_neg h1, if_pos h2, if_neg h3]
              exact ih _ _ hrest
          · simp only [prepareAux, if_neg h1, if_neg h2]
            exact ih _ _ hrest

/-- C7: `_prepare_terms` (run during `EventManager` construction, before any
`apply` call is possible) raises a fatal configuration error whenever the
configuration contains an enabled term with mode `"interval"` but no
`interval_range_s`, and whenever it contains an enabled term with mode
`"reset"` and a negative `min_step_count_between_reset` — construction
returns an error instead of a manager state. -/
theorem C7_prepare_rejects (num_envs : ℕ) (r : ℕ → ℚ)
    (cfg : List (String × Option EventTermCfg)) :
    ((∃ p ∈ cfg, ∃ c, p.2 = some c ∧ c.mode = "interval" ∧
        c.interval_range_s = Option.none) →
      prepare_terms num_envs r cfg = .error .configError) ∧
    ((∃ p ∈ cfg, ∃ c, p.2 = some c ∧ c.mode = "reset" ∧
        c.min_step_count_between_reset < 0) →
      prepare_terms num_envs r cfg = .error .configError) := by
  constructor
  · rintro ⟨p, hp, c, hpc, h1, h2⟩
    exact prepareAux_error_of_bad num_envs r cfg 0 emptyState ⟨p, hp, c, hpc, .inl ⟨h1, h2⟩⟩
  · rintro ⟨p, hp, c, hpc, h1, h2⟩
    exact prepareAux_error_of_bad num_envs r cfg 0 emptyState ⟨p, hp, c, hpc, .inr ⟨h1, h2⟩⟩

/-- Witness for `C7_prepare_rejects`: a configuration with an interval term
missing its range (after a disabled term), and one with a negative reset
gate. -/
theorem C7_prepare_rejects_witness :
    prepare_terms 2 rzero
        [("a", Option.none), ("b", some ({ mode := "interval" } : EventTermCfg))] =
      .error .configError ∧
    prepare_terms 2 rzero
        [("c", some ({ mode := "reset", min_step_count_between_reset := -1 } :
          EventTermCfg))] = .error .configError := by
  constructor
  · exact (C7_prepare_rejects 2 rzero _).1
      ⟨("b", some ({ mode := "interval" } : EventTermCfg)), by decide,
        { mode := "interval" }, rfl, rfl, rfl⟩
  · exact (C7_prepare_rejects 2 rzero _).2
      ⟨("c", some ({ mode := "reset", min_step_count_between_reset := -1 } :
          EventTermCfg)), by decide,
        { mode := "reset", min_step_count_between_reset := -1 }, rfl, rfl, by decide⟩

end OrbitEvent

namespace OrbitEvent

/-! ### Preparation invariants (for claim C8) -/

lemma alistFind_mem {α : Type} {k : String} {l : List (String × α)} {v : α}
    (h : alistFind k l = some v) : (k, v) ∈ l := by
  induction l with
  | nil => cases h
  | cons p rest ih =>
    obtain ⟨k0, v0⟩ := p
    by_cases hk : k = k0
    · subst hk
      simp only [alistFind, if_pos rfl] at h
      obtain rfl : v0 = v := by injection h
      exact List.mem_cons_self _ _
    · simp only [alistFind, if_neg hk] at h
      exact List.mem_cons_of_mem _ (ih h)

lemma alistUpdate_names_invariant (k x n : String) (l : List (String × List String))
    (hx : x ≠ n) (hl : ∀ p ∈ l, n ∉ p.2) :
    ∀ p ∈ alistUpdate k (fun ts => ts ++ [x]) l, n ∉ p.2 := by
  induction l with
  | nil => intro p hp; cases hp
  | cons q rest ih =>
    obtain ⟨k0, v0⟩ := q
    by_cases hk : k = k0
    · subst hk
      simp only [alistUpdate, if_pos rfl]
      intro p hp
      rcases List.mem_cons.1 hp with rfl | hp2
      · intro hmem
        rcases List.mem_append.1 hmem with hmem1 | hmem2
        · exact hl (k, v0) (List.mem_cons_self _ _) hmem1
        · exact hx (List.mem_singleton.1 hmem2).symm
      · exact hl p (List.mem_cons_of_mem _ hp2)
    · simp only [alistUpdate, if_neg hk]
      intro p hp
      rcases List.mem_cons.1 hp with rfl | hp2
      · exact hl (k0, v0) (List.mem_cons_self _ _)
      · exact ih (fun q hq => hl q (List.mem_cons_of_mem _ hq)) p hp2

lemma addTerm_names_invariant (st : EventManagerState) (nm : String) (c : EventTermCfg)
    (n : String) (hnm : nm ≠ n) (hst : ∀ p ∈ st.mode_term_names, n ∉ p.2) :
    ∀ p ∈ (addTerm st nm c).mode_term_names, n ∉ p.2 := by
  have hmid : ∀ p ∈ (addMode st c.mode).mode_term_names, n ∉ p.2 := by
    rw [addMode]
    by_cases h : (alistFind c.mode st.mode_term_names).isSome
    · rw [if_pos h]
      exact hst
    · rw [if_neg h]
      intro p hp
      rcases List.mem_append.1 hp with hp1 | hp2
      · exact hst p hp1
      · rw [List.mem_singleton.1 hp2]
        intro hmem
        cases hmem
  exact alistUpdate_names_invariant c.mode nm n _ hnm hmid

lemma alistUpdate_zip_lengths {β γ : Type} (k : String) (x : β) (y : γ)
    (l1 : List (String × List β)) (l2 : List (String × List γ))
    (hkeys : l1.map Prod.fst = l2.map Prod.fst)
    (hlen : ∀ p ∈ l1.zip l2, p.1.2.length = p.2.2.length) :
    ∀ p ∈ (alistUpdate k (fun v => v ++ [x]) l1).zip
        (alistUpdate k (fun v => v ++ [y]) l2), p.1.2.length = p.2.2.length := by
  induction l1 generalizing l2 with
  | nil => intro p hp; cases hp
  | cons q rest ih =>
    obtain ⟨k1, v1⟩ := q
    cases l2 with
    | nil => simp at hkeys
    | cons q2 rest2 =>
      obtain ⟨k2, v2⟩ := q2
      have hk : k1 = k2 ∧ List.map Prod.fst rest = List.map Prod.fst rest2 := by
        simpa using hkeys
      obtain ⟨rfl, hrest⟩ := hk
      have hhead : v1.length = v2.length :=
        hlen ((k1, v1), (k1, v2))
          (by rw [List.zip_cons_cons]; exact List.mem_cons_self _ _)
      have htail : ∀ p ∈ rest.zip rest2, p.1.2.length = p.2.2.length := fun p hp =>
        hlen p (by rw [List.zip_cons_cons]; exact List.mem_cons_of_mem _ hp)
      by_cases hk1 : k = k1
      · simp only [alistUpdate, if_pos hk1, List.zip_cons_cons]
        intro p hp
        rcases List.mem_cons.1 hp with rfl | hp2
        · simp [hhead]
        · exact htail p hp2
      · simp only [alistUpdate, if_neg hk1, List.zip_cons_cons]
        intro p hp
        rcases List.mem_cons.1 hp with rfl | hp2
        · exact hhead
        · exact ih rest2 hrest htail p hp2

lemma addTerm_wf (st : EventManagerState) (nm : String) (c : EventTermCfg)
    (h : wfState st) : wfState (addTerm st nm c) := by
  obtain ⟨hkeys, hnd, hlen⟩ := h
  have hmid : wfState (addMode st c.mode) := by
    rw [addMode]
    by_cases hfound : (alistFind c.mode st.mode_term_names).isSome
    · rw [if_pos hfound]
      exact ⟨hkeys, hnd, hlen⟩
    · rw [if_neg hfound]
      have hnotkey : c.mode ∉ st.mode_term_names.map Prod.fst :=
        alistFind_eq_none_iff.1 (Option.not_isSome_iff_eq_none.1 hfound)
      have hlens : st.mode_term_names.length = st.mode_term_cfgs.length := by
        have := congrArg List.length hkeys
        simpa using this
      refine ⟨?_, ?_, ?_⟩
      · rw [List.map_append, List.map_append, hkeys]
        simp
      · simp only [List.map_append]
        rw [List.nodup_append]
        refine ⟨hnd, List.nodup_singleton _, ?_⟩
        intro a ha hb
        simp only [List.map_cons, List.map_nil] at hb
        rw [List.mem_singleton] at hb
        subst hb
        exact hnotkey ha
      · rw [List.zip_append hlens]
        intro p hp
        rcases List.mem_append.1 hp with hp1 | hp2
        · exact hlen p hp1
        · rw [List.zip_cons_cons] at hp2
          rcases List.mem_cons.1 hp2 with rfl | hp3
          · rfl
          · cases hp3
  obtain ⟨hkeys2, hnd2, hlen2⟩ := hmid
  refine ⟨?_, ?_, ?_⟩
  · show (alistUpdate c.mode _ _).map Prod.fst = (alistUpdate c.mode _ _).map Prod.fst
    rw [alistUpdate_keys, alistUpdate_keys, hkeys2]
  · show ((alistUpdate c.mode _ _).map Prod.fst).Nodup
    rw [alistUpdate_keys]
    exact hnd2
  · exact alistUpdate_zip_lengths c.mode nm c _ _ hkeys2 hlen2

lemma emptyState_wf : wfState emptyState := ⟨rfl, List.nodup_nil, fun p hp => by cases hp⟩

end OrbitEvent

namespace OrbitEvent

lemma addTerm_ibufs (st : EventManagerState) (nm : String) (c : EventTermCfg) :
    (addTerm st nm c).interval_term_time_left = st.interval_term_time_left := by
  rw [addTerm, addMode]
  split <;> rfl

lemma addTerm_rbufs (st : EventManagerState) (nm : String) (c : EventTermCfg) :
    (addTerm st nm c).reset_term_last_triggered_step_id =
      st.reset_term_last_triggered_step_id := by
  rw [addTerm, addMode]
  split <;> rfl

lemma prepareAux_names (num_envs : ℕ) (r : ℕ → ℚ) (n : String)
    (items : List (String × Option EventTermCfg)) :
    ∀ (rpos : ℕ) (st st' : EventManagerState),
    prepareAux num_envs r items rpos st = .ok st' →
    (∀ p ∈ st.mode_term_names, n ∉ p.2) →
    (∀ p ∈ items, p.1 ≠ n ∨ p.2 = Option.none) →
    ∀ p ∈ st'.mode_term_names, n ∉ p.2 := by
  induction items with
  | nil =>
    intro rpos st st' hok hst _
    injection hok with h
    subst h
    exact hst
  | cons hd rest ih =>
    obtain ⟨nm, oc⟩ := hd
    intro rpos st st' hok hst hitems
    have hitems2 : ∀ p ∈ rest, p.1 ≠ n ∨ p.2 = Option.none := fun p hp =>
      hitems p (List.mem_cons_of_mem _ hp)
    cases oc with
    | none =>
      simp only [prepareAux] at hok
      exact ih rpos st st' hok hst hitems2
    | some c0 =>
      have hnm : nm ≠ n := by
        rcases hitems (nm, some c0) (List.mem_cons_self _ _) with h | h
        · exact h
        · cases h
      have hst2 : ∀ p ∈ (addTerm st nm c0).mode_term_names, n ∉ p.2 :=
        addTerm_names_invariant st nm c0 n hnm hst
      by_cases h1 : c0.mode = "interval"
      · cases hr : c0.interval_range_s with
        | none =>
          simp only [prepareAux, if_pos h1, hr] at hok
          cases hok
        | some q =>
          obtain ⟨lo, up⟩ := q
          by_cases hg : c0.is_global_time
          · simp only [prepareAux, if_pos h1, hr, if_pos hg] at hok
            exact ih _ _ _ hok hst2 hitems2
          · simp only [prepareAux, if_pos h1, hr, if_neg hg] at hok
            exact ih _ _ _ hok hst2 hitems2
      · by_cases h2 : c0.mode = "reset"
        · by_cases h3 : c0.min_step_count_between_reset < 0
          · simp only [prepareAux, if_neg h1, if_pos h2, if_pos h3] at hok
            cases hok
          · simp only [prepareAux, if_neg h1, if_pos h2, if_neg h3] at hok
            exact ih _ _ _ hok hst2 hitems2
        · simp only [prepareAux, if_neg h1, if_neg h2] at hok
          exact ih _ _ _ hok hst2 hitems2

lemma prepareAux_buflen (num_envs : ℕ) (r : ℕ → ℚ)
    (items : List (String × Option EventTermCfg)) :
    ∀ (rpos : ℕ) (st st' : EventManagerState),
    prepareAux num_envs r items rpos st = .ok st' →
    st'.interval_term_time_left.length =
      st.interval_term_time_left.length + List.countP enabledInterval items ∧
    st'.reset_term_last_triggered_step_id.length =
      st.reset_term_last_triggered_step_id.length + List.countP enabledReset items := by
  induction items with
  | nil =>
    intro rpos st st' hok
    injection hok with h
    subst h
    simp [List.countP_nil]
  | cons hd rest ih =>
    obtain ⟨nm, oc⟩ := hd
    intro rpos st st' hok
    cases oc with
    | none =>
      simp only [prepareAux] at hok
      have hrec := ih rpos st st' hok
      rw [List.countP_cons_of_neg enabledInterval rest
          (by simp [enabledInterval] :
            ¬ (enabledInterval (nm, (Option.none : Option EventTermCfg)) = true)),
        List.countP_cons_of_neg enabledReset rest
          (by simp [enabledReset] :
            ¬ (enabledReset (nm, (Option.none : Option EventTermCfg)) = true))]
      exact hrec
    | some c0 =>
      by_cases h1 : c0.mode = "interval"
      · have hei : enabledInterval (nm, some c0) = true := by
          simp only [enabledInterval]
          rw [h1]
          decide
        have her : ¬ (enabledReset (nm, some c0) = true) := by
          simp only [enabledReset]
          rw [h1]
          decide
        rw [List.countP_cons_of_pos enabledInterval rest hei, List.countP_cons_of_neg enabledReset rest her]
        cases hr : c0.interval_range_s with
        | none =>
          simp only [prepareAux, if_pos h1, hr] at hok
          cases hok
        | some q =>
          obtain ⟨lo, up⟩ := q
          by_cases hg : c0.is_global_time
          · simp only [prepareAux, if_pos h1, hr, if_pos hg] at hok
            have hrec := ih _ _ _ hok
            simp only [addTerm_ibufs, addTerm_rbufs, List.length_append,
              List.length_cons, List.length_nil] at hrec
            omega
          · simp only [prepareAux, if_pos h1, hr, if_neg hg] at hok
            have hrec := ih _ _ _ hok
            simp only [addTerm_ibufs, addTerm_rbufs, List.length_append,
              List.length_cons, List.length_nil] at hrec
            omega
      · by_cases h2 : c0.mode = "reset"
        · have hei : ¬ (enabledInterval (nm, some c0) = true) := by
            simp only [enabledInterval, decide_eq_true_eq]
            exact h1
          have her : enabledReset (nm, some c0) = true := by
            simp only [enabledReset]
            rw [h2]
            decide
          rw [List.countP_cons_of_neg enabledInterval rest hei, List.countP_cons_of_pos enabledReset rest her]
          by_cases h3 : c0.min_step_count_between_reset < 0
          · simp only [prepareAux, if_neg h1, if_pos h2, if_pos h3] at hok
            cases hok
          · simp only [prepareAux, if_neg h1, if_pos h2, if_neg h3] at hok
            have hrec := ih _ _ _ hok
            simp only [addTerm_ibufs, addTerm_rbufs, List.length_append,
              List.length_cons, List.length_nil] at hrec
            omega
        · have hei : ¬ (enabledInterval (nm, some c0) = true) := by
            simp only [enabledInterval, decide_eq_true_eq]
            exact h1
          have her : ¬ (enabledReset (nm, some c0) = true) := by
            simp only [enabledReset, decide_eq_true_eq]
            exact h2
          rw [List.countP_cons_of_neg enabledInterval rest hei, List.countP_cons_of_neg enabledReset rest her]
          simp only [prepareAux, if_neg h1, if_neg h2] at hok
          have hrec := ih _ _ _ hok
          simp only [addTerm_ibufs, addTerm_rbufs] at hrec
          exact hrec

lemma prepareAux_wf (num_envs : ℕ) (r : ℕ → ℚ)
    (items : List (String × Option EventTermCfg)) :
    ∀ (rpos : ℕ) (st st' : EventManagerState),
    prepareAux num_envs r items rpos st = .ok st' →
    wfState st → wfState st' := by
  induction items with
  | nil =>
    intro rpos st st' hok hwf
    injection hok with h
    subst h
    exact hwf
  | cons hd rest ih =>
    obtain ⟨nm, oc⟩ := hd
    intro rpos st st' hok hwf
    cases oc with
    | none =>
      simp only [prepareAux] at hok
      exact ih rpos st st' hok hwf
    | some c0 =>
      have hwf2 : wfState (addTerm st nm c0) := addTerm_wf st nm c0 hwf
      by_cases h1 : c0.mode = "interval"
      · cases hr : c0.interval_range_s with
        | none =>
          simp only [prepareAux, if_pos h1, hr] at hok
          cases hok
        | some q =>
          obtain ⟨lo, up⟩ := q
          by_cases hg : c0.is_global_time
          · simp only [prepareAux, if_pos h1, hr, if_pos hg] at hok
            exact ih _ _ _ hok hwf2
          · simp only [prepareAux, if_pos h1, hr, if_neg hg] at hok
            exact ih _ _ _ hok hwf2
      · by_cases h2 : c0.mode = "reset"
        · by_cases h3 : c0.min_step_count_between_reset < 0
          · simp only [prepareAux, if_neg h1, if_pos h2, if_pos h3] at hok
            cases hok
          · simp only [prepareAux, if_neg h1, if_pos h2, if_neg h3] at hok
            exact ih _ _ _ hok hwf2
        · simp only [prepareAux, if_neg h1, if_neg h2] at hok
          exact ih _ _ _ hok hwf2

end OrbitEvent

namespace OrbitEvent

lemma eq_of_mem_nodup_keys {β : Type} {l : List (String × β)}
    (hnd : (l.map Prod.fst).Nodup) {p q : String × β}
    (hp : p ∈ l) (hq : q ∈ l) (h : p.1 = q.1) : p = q := by
  induction l with
  | nil => cases hp
  | cons a rest ih =>
    have hnd2 : (a.1 :: rest.map Prod.fst).Nodup := by simpa using hnd
    have hhead : a.1 ∉ rest.map Prod.fst := (List.nodup_cons.1 hnd2).1
    rcases List.mem_cons.1 hp with rfl | hp2
    · rcases List.mem_cons.1 hq with rfl | hq2
      · rfl
      · exact absurd (h ▸ List.mem_map_of_mem Prod.fst hq2) hhead
    · rcases List.mem_cons.1 hq with rfl | hq2
      · exact absurd (h ▸ List.mem_map_of_mem Prod.fst hp2) hhead
      · exact ih (List.nodup_cons.1 hnd2).2 hp2 hq2

lemma applyTermStep_invs_name (mode : String) (d : ℚ) (gv : ℤ) (r : ℕ → ℚ)
    (names : List String) (i : ℕ) (c : EventTermCfg) (ls : LoopState) :
    ∀ inv ∈ (applyTermStep mode d gv r names i c ls).invs,
      inv ∈ ls.invs ∨ inv.name = names.getD i "" := by
  have hcase : (applyTermStep mode d gv r names i c ls).invs = ls.invs ∨
      ∃ a, (applyTermStep mode d gv r names i c ls).invs =
        ls.invs ++ [⟨names.getD i "", a⟩] := by
    simp only [applyTermStep]
    by_cases h1 : mode = "interval"
    · rw [if_pos h1]
      by_cases hg : c.is_global_time = true
      · rw [if_pos hg]
        by_cases hc : ((ls.ibufs.getD i []).map (fun t => t - d)).getD 0 0 ≤ 0
        · rw [if_pos hc]
          exact .inr ⟨ls.envArg, rfl⟩
        · rw [if_neg hc]
          exact .inl rfl
      · rw [if_neg hg]
        by_cases hf : elapsedIdx ((ls.ibufs.getD i []).map (fun t => t - d)) = []
        · rw [if_pos hf]
          exact .inl rfl
        · rw [if_neg hf]
          exact .inr ⟨_, rfl⟩
    · rw [if_neg h1]
      by_cases h2 : mode = "reset"
      · rw [if_pos h2]
        by_cases hm : c.min_step_count_between_reset = 0
        · rw [if_pos hm]
          exact .inr ⟨ls.envArg, rfl⟩
        · rw [if_neg hm]
          by_cases hf : firedPositions (gatherSteps ((ls.rbufs.getD i []).map
              (fun x => gv - x)) (if ls.envArg = .noneArg then .sliceAll else ls.envArg))
              c.min_step_count_between_reset = []
          · rw [if_pos hf]
            exact .inl rfl
          · rw [if_neg hf]
            exact .inr ⟨_, rfl⟩
      · rw [if_neg h2]
        exact .inr ⟨ls.envArg, rfl⟩
  intro inv hinv
  rcases hcase with h | ⟨a, h⟩
  · rw [h] at hinv
    exact .inl hinv
  · rw [h] at hinv
    rcases List.mem_append.1 hinv with h2 | h2
    · exact .inl h2
    · right
      rw [List.mem_singleton.1 h2]

lemma applyLoop_invs_name (mode : String) (d : ℚ) (gv : ℤ) (r : ℕ → ℚ)
    (names : List String) :
    ∀ (cfgs : List EventTermCfg) (i : ℕ) (ls : LoopState),
    i + cfgs.length ≤ names.length →
    ∀ inv ∈ (applyLoop mode d gv r names cfgs i ls).invs,
      inv ∈ ls.invs ∨ inv.name ∈ names := by
  intro cfgs
  induction cfgs with
  | nil =>
    intro i ls hb inv hinv
    exact .inl hinv
  | cons c cs ih =>
    intro i ls hb inv hinv
    rw [applyLoop_cons] at hinv
    have hb2 : (i + 1) + cs.length ≤ names.length := by
      simp only [List.length_cons] at hb
      omega
    rcases ih (i + 1) _ hb2 inv hinv with h | h
    · rcases applyTermStep_invs_name mode d gv r names i c ls inv h with h2 | h2
      · exact .inl h2
      · right
        have hi : i < names.length := by
          simp only [List.length_cons] at hb
          omega
        rw [h2, List.getD_eq_getElem names "" hi]
        exact List.getElem_mem hi
    · exact .inr h

lemma apply_invs_name (st : EventManagerState) (mode : String) (e : Option (List ℕ))
    (dt : Option ℚ) (g : Option ℤ) (r2 : ℕ → ℚ) (st2 : EventManagerState)
    (invs : List Invocation) (hwf : wfState st)
    (happly : apply st mode e dt g r2 = .ok (st2, invs)) :
    ∀ inv ∈ invs, ∃ ns, alistFind mode st.mode_term_names = some ns ∧ inv.name ∈ ns := by
  intro inv hinv
  rw [apply.eq_def] at happly
  by_cases hnone : (alistFind mode st.mode_term_names).isNone = true
  · rw [if_pos hnone] at happly
    injection happly with h
    injection h with ha hb
    subst hb
    cases hinv
  · rw [if_neg hnone] at happly
    have hne : alistFind mode st.mode_term_names ≠ Option.none := by
      intro hcontra
      exact hnone (by rw [hcontra]; rfl)
    obtain ⟨ns, hns⟩ := Option.ne_none_iff_exists'.1 hne
    obtain ⟨hkeys, hnd, hlen⟩ := hwf
    obtain ⟨cs, hcs, hlen2⟩ := alistFind_parallel hkeys hlen hns
    by_cases hgi : mode = "interval" ∧ dt = Option.none
    · rw [if_pos hgi] at happly
      cases happly
    · rw [if_neg hgi] at happly
      by_cases hgr : mode = "reset" ∧ g = Option.none
      · rw [if_pos hgr] at happly
        cases happly
      · rw [if_neg hgr] at happly
        injection happly with h
        injection h with ha hb
        subst hb
        have hbound : 0 + ((alistFind mode st.mode_term_cfgs).getD []).length ≤
            ((alistFind mode st.mode_term_names).getD []).length := by
          rw [hns, hcs]
          simp [hlen2]
        rcases applyLoop_invs_name mode (dt.getD 0) (g.getD 0) r2 _ _ 0 _ hbound
            inv hinv with h2 | h2
        · exact absurd h2 (List.not_mem_nil inv)
        · refine ⟨ns, hns, ?_⟩
          rw [hns] at h2
          simpa using h2

/-- C8: a term whose descriptor is `None` is skipped silently during
preparation: its name never appears in `active_terms` under any mode, the
timing/gating buffer lists contain exactly one entry per *enabled*
interval/reset term (so nothing is allocated for the disabled term), and no
`apply` call on the prepared manager ever invokes a term with its name. -/
theorem C8_disabled_terms (num_envs : ℕ) (r : ℕ → ℚ)
    (cfg : List (String × Option EventTermCfg)) (n : String) (st : EventManagerState)
    (hmem : (n, (Option.none : Option EventTermCfg)) ∈ cfg)
    (hnd : (cfg.map Prod.fst).Nodup)
    (hok : prepare_terms num_envs r cfg = .ok st) :
    (∀ p ∈ active_terms st, n ∉ p.2) ∧
    st.interval_term_time_left.length = List.countP enabledInterval cfg ∧
    st.reset_term_last_triggered_step_id.length = List.countP enabledReset cfg ∧
    (∀ (mode : String) (e : Option (List ℕ)) (dt : Option ℚ) (g : Option ℤ)
        (r2 : ℕ → ℚ) (st2 : EventManagerState) (invs : List Invocation),
      apply st mode e dt g r2 = .ok (st2, invs) → ∀ inv ∈ invs, inv.name ≠ n) := by
  have hitems : ∀ p ∈ cfg, p.1 ≠ n ∨ p.2 = Option.none := by
    intro p hp
    by_cases hpn : p.1 = n
    · right
      have hpq : p = (n, (Option.none : Option EventTermCfg)) :=
        eq_of_mem_nodup_keys hnd hp hmem (by rw [hpn])
      rw [hpq]
    · exact .inl hpn
  have hnames : ∀ p ∈ st.mode_term_names, n ∉ p.2 :=
    prepareAux_names num_envs r n cfg 0 emptyState st hok (fun p hp => by cases hp) hitems
  refine ⟨hnames, ?_, ?_, ?_⟩
  · simpa [emptyState] using (prepareAux_buflen num_envs r cfg 0 emptyState st hok).1
  · simpa [emptyState] using (prepareAux_buflen num_envs r cfg 0 emptyState st hok).2
  · intro mode e dt g r2 st2 invs happly inv hinv heq
    have hwf : wfState st := prepareAux_wf num_envs r cfg 0 emptyState st hok emptyState_wf
    obtain ⟨ns, hns, hmem2⟩ := apply_invs_name st mode e dt g r2 st2 invs hwf happly inv hinv
    rw [heq] at hmem2
    exact hnames (mode, ns) (alistFind_mem hns) hmem2

/-- Witness for `C8_disabled_terms`: the configuration `[("on", reset term),
("off", None)]`; term `"off"` is disabled. -/
theorem C8_disabled_terms_witness :
    (∀ p ∈ active_terms ⟨[("reset", ["on"])], [("reset", [resetCfg0])], [], [[0, 0]]⟩,
      "off" ∉ p.2) ∧
    (⟨[("reset", ["on"])], [("reset", [resetCfg0])], [], [[0, 0]]⟩ :
        EventManagerState).interval_term_time_left.length =
      List.countP enabledInterval
        [("on", some resetCfg0), ("off", (Option.none : Option EventTermCfg))] ∧
    (⟨[("reset", ["on"])], [("reset", [resetCfg0])], [], [[0, 0]]⟩ :
        EventManagerState).reset_term_last_triggered_step_id.length =
      List.countP enabledReset
        [("on", some resetCfg0), ("off", (Option.none : Option EventTermCfg))] ∧
    (∀ (mode : String) (e : Option (List ℕ)) (dt : Option ℚ) (g : Option ℤ)
        (r2 : ℕ → ℚ) (st2 : EventManagerState) (invs : List Invocation),
      apply ⟨[("reset", ["on"])], [("reset", [resetCfg0])], [], [[0, 0]]⟩
          mode e dt g r2 = .ok (st2, invs) → ∀ inv ∈ invs, inv.name ≠ "off") :=
  C8_disabled_terms 2 rzero
    [("on", some resetCfg0), ("off", (Option.none : Option EventTermCfg))] "off"
    ⟨[("reset", ["on"])], [("reset", [resetCfg0])], [], [[0, 0]]⟩
    (by decide) (by decide) (by decide)

end OrbitEvent

namespace OrbitEvent

/-! ### Claim C10 -/

/-- C10 (implicit): within one `apply` call the term loop threads its local
`env_ids` binding (part of the `LoopState`) from one term to the next
instead of re-reading the caller's argument — the first conjunct shows the
loop hands the whole post-step state, including the rebound `env_ids`, to
the remaining terms — and both a "reset" term with a nonzero
`min_step_count_between_reset` and a per-environment "interval" term rebind
`env_ids` to their fired subset (even when that subset is empty), so every
subsequent term of the same call is gated and invoked starting from that
rebound subset rather than from the caller-supplied `env_ids`. -/
theorem C10_env_ids_rebinding (mode : String) (d : ℚ) (gv : ℤ) (r : ℕ → ℚ)
    (names : List String) (c : EventTermCfg) (cs : List EventTermCfg) (i : ℕ)
    (ls : LoopState) :
    (applyLoop mode d gv r names (c :: cs) i ls =
      applyLoop mode d gv r names cs (i + 1) (applyTermStep mode d gv r names i c ls)) ∧
    (c.min_step_count_between_reset ≠ 0 →
      (applyTermStep "reset" d gv r names i c ls).envArg =
        .idx (firedPositions
          (gatherSteps ((ls.rbufs.getD i []).map (fun x => gv - x))
            (if ls.envArg = .noneArg then .sliceAll else ls.envArg))
          c.min_step_count_between_reset)) ∧
    (c.is_global_time = false →
      (applyTermStep "interval" d gv r names i c ls).envArg =
        .idx (elapsedIdx ((ls.ibufs.getD i []).map (fun t => t - d)))) := by
  refine ⟨applyLoop_cons mode d gv r names c cs i ls, ?_, ?_⟩
  · intro hm
    simp only [applyTermStep]
    rw [if_neg (by decide : ¬ (("reset" : String) = "interval")),
      if_pos True.intro, if_neg hm]
    by_cases hf : firedPositions
        (gatherSteps ((ls.rbufs.getD i []).map (fun x => gv - x))
          (if ls.envArg = .noneArg then .sliceAll else ls.envArg))
        c.min_step_count_between_reset = []
    · rw [if_pos hf]
    · rw [if_neg hf]
  · intro hg
    simp only [applyTermStep]
    rw [if_pos True.intro, hg,
      if_neg (by decide : ¬ ((false : Bool) = true))]
    by_cases hf : elapsedIdx ((ls.ibufs.getD i []).map (fun t => t - d)) = []
    · rw [if_pos hf]
    · rw [if_neg hf]

/-- Witness for `C10_env_ids_rebinding`: a "reset" call with caller subset
`[1]`; the gated term (threshold 1, last-triggered `[0, 0]`, step count 5)
rebinds `env_ids` to `[0]` (the position of env 1 inside the subset), and
the loop passes that state on to the remaining term. -/
theorem C10_env_ids_rebinding_witness :
    (applyLoop "reset" 0 5 rzero ["a", "b"] (pushCfg1 :: [resetCfg0]) 0
        ⟨.idx [1], [], [[0, 0], [0, 0]], 0, []⟩ =
      applyLoop "reset" 0 5 rzero ["a", "b"] [resetCfg0] (0 + 1)
        (applyTermStep "reset" 0 5 rzero ["a", "b"] 0 pushCfg1
          ⟨.idx [1], [], [[0, 0], [0, 0]], 0, []⟩)) ∧
    ((applyTermStep "reset" 0 5 rzero ["a", "b"] 0 pushCfg1
        ⟨.idx [1], [], [[0, 0], [0, 0]], 0, []⟩).envArg = .idx [0]) ∧
    ((applyTermStep "interval" 0 5 rzero ["a", "b"] 0 pushCfg1
        ⟨.idx [1], [], [[0, 0], [0, 0]], 0, []⟩).envArg = .idx []) := by
  refine ⟨?_, ?_, ?_⟩
  · exact (C10_env_ids_rebinding "reset" 0 5 rzero ["a", "b"] pushCfg1 [resetCfg0] 0
      ⟨.idx [1], [], [[0, 0], [0, 0]], 0, []⟩).1
  · exact (C10_env_ids_rebinding "reset" 0 5 rzero ["a", "b"] pushCfg1 [resetCfg0] 0
      ⟨.idx [1], [], [[0, 0], [0, 0]], 0, []⟩).2.1 (by decide)
  · exact (C10_env_ids_rebinding "interval" 0 5 rzero ["a", "b"] pushCfg1 [resetCfg0] 0
      ⟨.idx [1], [], [[0, 0], [0, 0]], 0, []⟩).2.2 (by decide)

end OrbitEvent
